import Mathlib

/-!
Verification development for the APR dataset collector
(`collect_apr_dataset_auto_date.py` and `reset_tracker_files.py`).

The Python sources are shallowly embedded below: pure functions become Lean
functions on `String` / `List String`; the stateful crawl loop, credential
rotation and the reset script become explicit state-passing functions, with
the network modelled as an oracle argument.  Machine-level concerns do not
arise (Python integers are unbounded), so `Nat` / `Int` are used directly.
-/

set_option autoImplicit false

namespace APRCollect

/-! ### Python string primitives

The collector manipulates text with `str.splitlines`, `str.startswith`,
`str.strip`, `str.endswith`, slicing (`ln[1:]`), `str.replace` and
`"\n".join`.  These are embedded on the character list underlying `String`
so every definition reduces by kernel computation.  `splitlines` is modelled
for the `"\n"` separator (the only one occurring in unified-diff patches and
raw file bodies fetched over HTTP).
-/

/-- Python `s.splitlines()` on `'\n'` separators, as a recursion over the
character list: a trailing newline does not produce a trailing empty line. -/
def pySplitLinesAux : List Char → List Char → List (List Char)
  | [], acc => if acc.isEmpty then [] else [acc.reverse]
  | '\n' :: rest, acc => acc.reverse :: pySplitLinesAux rest []
  | c :: rest, acc => pySplitLinesAux rest (c :: acc)

/-- Python `s.splitlines()`. -/
def pySplitlines (s : String) : List String :=
  (pySplitLinesAux s.data []).map (fun cs => ⟨cs⟩)

/-- Python `s.startswith(pre)`. -/
def startsWithStr (pre s : String) : Bool :=
  pre.data.isPrefixOf s.data

/-- Python `s.endswith(suf)`. -/
def endsWithStr (suf s : String) : Bool :=
  List.isSuffixOf suf.data s.data

/-- Python `s.strip()`: remove leading and trailing whitespace. -/
def pyStrip (s : String) : String :=
  ⟨((s.data.dropWhile Char.isWhitespace).reverse.dropWhile Char.isWhitespace).reverse⟩

/-- Python `s[1:]`: drop the first character. -/
def strTail (s : String) : String := ⟨s.data.drop 1⟩

/-- Python `s.replace("\n", " ")` (applied to commit messages before writing). -/
def pyReplaceNl (s : String) : String :=
  ⟨s.data.map (fun c => if c = '\n' then ' ' else c)⟩

/-- Python `sep.join(parts)`. -/
def joinWith (sep : String) : List String → String
  | [] => ""
  | [x] => x
  | x :: xs => x ++ sep ++ joinWith sep xs

/-! ### Configuration constants (`collect_apr_dataset_auto_date.py`, lines 23-40)

`GITHUB_TOKENS` holds three credentials; only its length is semantically
relevant and is embedded as `numTokens`.
-/

def numTokens : Nat := 3
def OUTPUT_FILE : String := "python_repairllama_dataset.csv"
def SEEN_FILE : String := "seen_commits.txt"
def STATE_FILE : String := "collector_state.json"
def MAX_COMMITS : Nat := 3000
def FILES_LIMIT : Nat := 3
def DAYS_PER_RANGE : Nat := 7
def MAX_PAGES_PER_QUERY : Nat := 10

/-! ### Diff hunk parser (`parse_patch_hunks`, lines 100-122) -/

/-- A parsed unified-diff hunk, as built by `parse_patch_hunks`. -/
structure Hunk where
  o_start : Nat
  o_len : Nat
  n_start : Nat
  n_len : Nat
  lines : List String
deriving DecidableEq, Repr

/-- Consume a maximal run of further digits, accumulating their value
(matching a greedy `\d+` continuation). -/
def takeDigitsAux : List Char → Nat → Nat × List Char
  | [], acc => (acc, [])
  | c :: rest, acc =>
    if c.isDigit then takeDigitsAux rest (10 * acc + (c.toNat - 48)) else (acc, c :: rest)

/-- Consume a nonempty maximal digit run (regex `\d+`); `none` if the input
does not begin with a digit. -/
def takeDigits : List Char → Option (Nat × List Char)
  | [] => none
  | c :: rest =>
    if c.isDigit then some (takeDigitsAux rest (c.toNat - 48)) else none

/-- Match of the hunk-header regex
`^@@ -(\d+)(?:,(\d+))? \+(\d+)(?:,(\d+))? @@` against a whole line,
returning the captured numbers (`none` for an omitted length group).
Because each `\d+` is followed by a non-digit in the pattern, the greedy
match never backtracks, so the regex is equivalent to this deterministic
scan.  Anything may follow the closing ` @@`. -/
def parseHunkHeader (s : String) : Option (Nat × Option Nat × Nat × Option Nat) :=
  match s.data with
  | '@' :: '@' :: ' ' :: '-' :: r0 =>
    match takeDigits r0 with
    | none => none
    | some (oStart, r1) =>
      let step1 : Option (Option Nat × List Char) :=
        match r1 with
        | ',' :: r =>
          match takeDigits r with
          | none => none
          | some (v, r2) => some (some v, r2)
        | _ => some (none, r1)
      match step1 with
      | none => none
      | some (oLen, r2) =>
        match r2 with
        | ' ' :: '+' :: r3 =>
          match takeDigits r3 with
          | none => none
          | some (nStart, r4) =>
            let step2 : Option (Option Nat × List Char) :=
              match r4 with
              | ',' :: r =>
                match takeDigits r with
                | none => none
                | some (v, r5) => some (some v, r5)
              | _ => some (none, r4)
            match step2 with
            | none => none
            | some (nLen, r5) =>
              match r5 with
              | ' ' :: '@' :: '@' :: _ => some (oStart, oLen, nStart, nLen)
              | _ => none
        | _ => none
  | _ => none

/-- Negation of the body-terminating test `lines[i].startswith("@@ ")`. -/
def notHunkSep (l : String) : Bool := !(startsWithStr "@@ " l)

/-- The scanning loop of `parse_patch_hunks`.  The `fuel` argument bounds the
number of remaining iterations (the Python `while` consumes at least one line
per iteration, so `fuel = number of lines` always suffices); on a header
match the body is the maximal following run of lines not starting with
`"@@ "`, and scanning resumes at the first such line. -/
def parseHunksGo : Nat → List String → List Hunk
  | _, [] => []
  | 0, _ :: _ => []
  | fuel + 1, l :: rest =>
    match parseHunkHeader l with
    | some (os, oLen, ns, nLen) =>
      { o_start := os, o_len := oLen.getD 1, n_start := ns, n_len := nLen.getD 1,
        lines := rest.takeWhile notHunkSep } :: parseHunksGo fuel (rest.dropWhile notHunkSep)
    | none => parseHunksGo fuel rest

/-- `parse_patch_hunks(patch)`: split the patch into lines and scan them for
hunk headers and bodies. -/
def parse_patch_hunks (patch : String) : List Hunk :=
  parseHunksGo (pySplitlines patch).length (pySplitlines patch)

/-! ### Pair builder (`build_ir4_or2`, lines 125-150)

Index arithmetic is done over `Int`, mirroring Python's signed integers:
`start_idx = max(0, min(o_starts) - 1)` and
`end_idx = min(len(buggy_lines_all) - 1, max(o_ends) - 1)` may involve
negative intermediate values when a hunk header carries a `0` field or the
buggy file is empty.
-/

/-- A hunk's last original line, `h["o_start"] + h["o_len"] - 1` (1-indexed). -/
def hunk_o_end (h : Hunk) : Int := (h.o_start : Int) + (h.o_len : Int) - 1

/-- Python `min(o_starts)` over the nonempty hunk list `h0 :: hs`. -/
def min_o_start (h0 : Hunk) (hs : List Hunk) : Int :=
  hs.foldl (fun a h => min a (h.o_start : Int)) (h0.o_start : Int)

/-- Python `max(o_ends)` over the nonempty hunk list `h0 :: hs`. -/
def max_o_end (h0 : Hunk) (hs : List Hunk) : Int :=
  hs.foldl (fun a h => max a (hunk_o_end h)) (hunk_o_end h0)

/-- `start_idx = max(0, min(o_starts) - 1)`. -/
def start_idx_of (h0 : Hunk) (hs : List Hunk) : Int :=
  max 0 (min_o_start h0 hs - 1)

/-- `end_idx = min(len(buggy_lines_all) - 1, max(o_ends) - 1)`. -/
def end_idx_of (buggy_lines_all : List String) (h0 : Hunk) (hs : List Hunk) : Int :=
  min ((buggy_lines_all.length : Int) - 1) (max_o_end h0 hs - 1)

/-- The filter `ln.startswith("+") and not ln.startswith("+++")` selecting
added body lines (excluding the `+++` file marker). -/
def is_added_line (ln : String) : Bool :=
  startsWithStr "+" ln && !(startsWithStr "+++" ln)

/-- `[ln[1:] for h in hunks for ln in h["lines"] if ...]`: all added lines
across the hunks, in hunk order then in-hunk order, with the `+` stripped. -/
def added_lines_of (hunks : List Hunk) : List String :=
  (hunks.map (fun h => (h.lines.filter is_added_line).map strTail)).flatten

/-- The added lines a patch contributes, after parsing. -/
def added_lines (patch : String) : List String :=
  added_lines_of (parse_patch_hunks patch)

/-- Whether the envelope guard `start_idx > end_idx` passes for a given buggy
file and patch (requires at least one parsed hunk). -/
def envelope_ok (buggy_code patch : String) : Bool :=
  match parse_patch_hunks patch with
  | [] => false
  | h0 :: hs =>
    decide (start_idx_of h0 hs ≤ end_idx_of (pySplitlines buggy_code) h0 hs)

/-- `build_ir4_or2(buggy_code, fixed_code, patch)`.  Returns `(None, None)`
when the patch has no hunks, the envelope is degenerate, or there are no
added lines; otherwise the masked input (`ir4`) and the replacement text
(`or2`).  The `fixed_code` argument is accepted but, as in the source,
never used. -/
def build_ir4_or2 (buggy_code _fixed_code patch : String) : Option String × Option String :=
  match parse_patch_hunks patch with
  | [] => (none, none)
  | h0 :: hs =>
    let buggy_lines_all := pySplitlines buggy_code
    let start_idx : Int := start_idx_of h0 hs
    let end_idx : Int := end_idx_of buggy_lines_all h0 hs
    if end_idx < start_idx then (none, none)
    else
      match added_lines_of (h0 :: hs) with
      | [] => (none, none)
      | _ :: _ =>
        let buggy_snippet := (buggy_lines_all.take (end_idx.toNat + 1)).drop start_idx.toNat
        let commented :=
          joinWith "\n" (buggy_snippet.map (fun l => if pyStrip l = "" then "#" else "# " ++ l))
        let ir4 :=
          joinWith "\n" (buggy_lines_all.take start_idx.toNat
            ++ [commented, "<FILL_ME>"] ++ buggy_lines_all.drop (end_idx.toNat + 1))
        let or2 := joinWith "\n" (added_lines_of (h0 :: hs))
        (some ir4, some or2)

/-! ### Fetch pipeline (`main`, lines 218-256)

The network is an `Oracle`: `commit_details` models `get_commit_details`
(a `None` result stands for `github_get` giving up) and `file_at` models
`fetch_file` (a `None` result for a non-200 response).  Side effects are
made explicit: rows written to the CSV, shas appended to the seen file and
network fetches performed are all returned as lists, in program order.
-/

/-- One CSV row, in the column order written by `writer.writerow`
(line 246). -/
structure Row where
  repo : String
  file_path : String
  commit_sha : String
  commit_message : String
  input_representation : String
  output_representation : String
  buggy_code : String
  fixed_code : String
deriving DecidableEq, Repr

/-- One entry of a commit's `files` list: path and optional `patch` text
(the `"patch" not in f` case is `none`). -/
structure ChangedFile where
  filename : String
  patch : Option String
deriving DecidableEq, Repr

/-- The fields of a commit-detail response the pipeline reads:
`parents` (shas), `files`, and `commit.message`. -/
structure Commit where
  parents : List String
  files : List ChangedFile
  message : String
deriving DecidableEq, Repr

/-- The network, as seen through `get_commit_details` and `fetch_file`. -/
structure Oracle where
  commit_details : String → String → Option Commit
  file_at : String → String → String → Option String

/-- A network fetch performed by the pipeline, recorded for the
short-circuiting property: commit-detail requests and raw-file requests. -/
inductive Fetch where
  | detail (repo sha : String)
  | file (repo sha path : String)
deriving DecidableEq, Repr

/-- Accumulated effects of a pipeline fragment: CSV rows written, the
in-memory seen set afterwards, shas appended to the seen file, and network
fetches performed, each in program order. -/
structure StepOut where
  rows : List Row
  seen : List String
  seen_appends : List String
  fetches : List Fetch
deriving Repr

/-- The row-construction decision of lines 241-250, after both file bodies
have been fetched: skip if either body is missing/empty (`not buggy or not
fixed`) or the stripped bodies coincide; build the pair; skip if either
representation is falsy (`not ir4 or not or2`); otherwise the written row. -/
def file_row (repo fn sha msg : String) (buggy fixed : Option String) (patch : String) :
    Option Row :=
  match buggy, fixed with
  | some b, some fx =>
    if b = "" ∨ fx = "" ∨ pyStrip b = pyStrip fx then none
    else
      match build_ir4_or2 b fx patch with
      | (some i, some o) =>
        if i = "" ∨ o = "" then none
        else some { repo := repo, file_path := fn, commit_sha := sha,
                    commit_message := pyReplaceNl msg,
                    input_representation := i, output_representation := o,
                    buggy_code := b, fixed_code := fx }
      | _ => none
  | _, _ => none

/-- One iteration of the `for f in files` loop (lines 236-250): the
extension/patch predicate is checked first and performs no fetch; otherwise
both file bodies are fetched and `file_row` decides the row. -/
def file_attempt (o : Oracle) (repo parent_sha sha msg : String) (f : ChangedFile) :
    Option Row × List Fetch :=
  if !(endsWithStr ".py" f.filename) then (none, [])
  else
    match f.patch with
    | none => (none, [])
    | some patch =>
      let buggy := o.file_at repo parent_sha f.filename
      let fixed := o.file_at repo sha f.filename
      (file_row repo f.filename sha msg buggy fixed patch,
       [Fetch.file repo parent_sha f.filename, Fetch.file repo sha f.filename])

/-- The whole `for f in files` loop: on each successful row the sha is added
to the in-memory set (`seen_commits.add`, idempotent like Python's set) and
appended to the seen file. -/
def process_files (o : Oracle) (repo parent_sha sha msg : String) :
    List String → List ChangedFile → StepOut
  | seen, [] => ⟨[], seen, [], []⟩
  | seen, f :: rest =>
    match file_attempt o repo parent_sha sha msg f with
    | (none, fts) =>
      let out := process_files o repo parent_sha sha msg seen rest
      ⟨out.rows, out.seen, out.seen_appends, fts ++ out.fetches⟩
    | (some row, fts) =>
      let out := process_files o repo parent_sha sha msg (seen.insert sha) rest
      ⟨row :: out.rows, out.seen, sha :: out.seen_appends, fts ++ out.fetches⟩

/-- One iteration of the `for item in res["items"]` loop (lines 221-253):
the seen-set membership test precedes the commit-detail fetch; a missing
detail, an empty parent list, or an empty/oversized file list skips the
commit after the one detail fetch. -/
def process_item (o : Oracle) (seen : List String) (repo sha : String) : StepOut :=
  if sha ∈ seen then ⟨[], seen, [], []⟩
  else
    match o.commit_details repo sha with
    | none => ⟨[], seen, [], [Fetch.detail repo sha]⟩
    | some commit =>
      match commit.parents with
      | [] => ⟨[], seen, [], [Fetch.detail repo sha]⟩
      | parent_sha :: _ =>
        if commit.files = [] ∨ FILES_LIMIT < commit.files.length then
          ⟨[], seen, [], [Fetch.detail repo sha]⟩
        else
          let out := process_files o repo parent_sha sha commit.message seen commit.files
          ⟨out.rows, out.seen, out.seen_appends, Fetch.detail repo sha :: out.fetches⟩

/-- The item loop over one search page, threading the collected counter:
`if collected >= MAX_COMMITS: break` stops before the next item, and each
written row increments the counter. -/
def process_items (o : Oracle) : Nat → List String → List (String × String) → StepOut
  | _, seen, [] => ⟨[], seen, [], []⟩
  | collected, seen, (repo, sha) :: rest =>
    if MAX_COMMITS ≤ collected then ⟨[], seen, [], []⟩
    else
      let out := process_item o seen repo sha
      let out2 := process_items o (collected + out.rows.length) out.seen rest
      ⟨out.rows ++ out2.rows, out2.seen, out.seen_appends ++ out2.seen_appends,
       out.fetches ++ out2.fetches⟩

/-! ### Credential rotator (`switch_token` / `github_get`, lines 69-96) -/

/-- `switch_token()`: advance the global token index, wrapping. -/
def switch_token (token_index : Nat) : Nat :=
  (token_index + 1) % numTokens

/-- The 403 branch of `github_get` (lines 84-90): remember `prev`, switch
tokens, and signal the long cooldown sleep exactly when
`token_index == 0 and prev == len(GITHUB_TOKENS) - 1`. -/
def rate_limit_rotate (token_index : Nat) : Nat × Bool :=
  let prev := token_index
  let next := switch_token token_index
  (next, decide (next = 0 ∧ prev = numTokens - 1))

/-- Drive `rate_limit_rotate` through `k` consecutive rate-limited requests
starting from a given index, counting the long cooldown sleeps performed. -/
def run_403s : Nat → Nat → Nat × Nat
  | i, 0 => (i, 0)
  | i, k + 1 =>
    let step := rate_limit_rotate i
    let rest := run_403s step.1 k
    (rest.1, (if step.2 then 1 else 0) + rest.2)

/-! ### Resumable search driver (`main` / `advance_date`, lines 170-268)

A checkpoint stores `keyword_index`, `date_end` and `page`.  The source
keeps `date_end` as an ISO `YYYY-MM-DD` string, parsed with
`datetime.strptime` and advanced with `date - timedelta(days=...)`; a date
is modelled here by its proleptic-Gregorian ordinal (Python
`date.toordinal`), under which `strptime`/`strftime` round-trip and
timedelta subtraction is exactly ordinal subtraction.  (Python's
`date.fromordinal` raises below ordinal 1; a run reaching year 1 would
crash rather than checkpoint, which is outside the behaviour modelled.)
-/

/-- The persisted checkpoint `{keyword_index, date_end, page}`. -/
structure CrawlState where
  keyword_index : Nat
  date_end : Int
  page : Nat
deriving DecidableEq, Repr

/-- `advance_date(end_date_str, days)`: move the window end back by
`days` days. -/
def advance_date (date_end : Int) (days : Nat) : Int :=
  date_end - (days : Int)

/-- The inner paging loop (lines 212-262) for one window, with `empty p`
telling whether the search page `p` comes back without items and `gain p`
how many rows its items contribute.  The remaining-iterations argument
starts at `MAX_PAGES_PER_QUERY` (`pages_used` counts up in the source);
the loop head also stops when the sample target is reached, an empty page
breaks before any checkpoint write, and otherwise the checkpoint
`{keyword_index, date_end, page + 1}` is persisted after the page.
Returns the final page and collected count plus the checkpoints persisted,
in order. -/
def pages_loop (ki : Nat) (de : Int) (empty : Nat → Bool) (gain : Nat → Nat) :
    Nat → Nat → Nat → Nat × Nat × List CrawlState
  | 0, page, collected => (page, collected, [])
  | r + 1, page, collected =>
    if MAX_COMMITS ≤ collected then (page, collected, [])
    else if empty page then (page, collected, [])
    else
      let out := pages_loop ki de empty gain r (page + 1) (collected + gain page)
      (out.1, out.2.1, ⟨ki, de, page + 1⟩ :: out.2.2)

/-- One iteration of the outer `while collected < MAX_COMMITS` loop
(lines 202-268): run the pages of the current window, then slide the window
back by `DAYS_PER_RANGE`, reset the page to 1, advance the keyword index and
persist (lines 264-268).  Returns the state entering the next iteration and
every checkpoint persisted during this one, in order. -/
def window_step (empty : Nat → Bool) (gain : Nat → Nat) (collected : Nat) (s : CrawlState) :
    CrawlState × List CrawlState :=
  let inner := pages_loop s.keyword_index s.date_end empty gain
    MAX_PAGES_PER_QUERY s.page collected
  let s2 : CrawlState :=
    ⟨s.keyword_index + 1, advance_date s.date_end DAYS_PER_RANGE, 1⟩
  (s2, inner.2.2 ++ [s2])

/-! ### Reset script (`reset_tracker_files.py`)

The filesystem is a map from path to optional content.  `backup_and_reset`
iterates over `TRACKER_FILES`, and for each existing file copies it into the
timestamped backup directory (`shutil.copy`) and deletes the original
(`os.remove`).
-/

/-- A filesystem: path to content, `none` when absent. -/
def FS : Type := String → Option String

/-- The files the reset script touches (`reset_tracker_files.py`, line 18). -/
def TRACKER_FILES : List String := ["seen_commits.txt", "last_date.txt"]

/-- `os.path.join` for the paths involved here. -/
def joinPath (a b : String) : String := a ++ "/" ++ b

/-- The timestamped backup directory `backups/backup_<timestamp>`. -/
def backup_subdir (timestamp : String) : String :=
  joinPath "backups" ("backup_" ++ timestamp)

/-- Back up and delete one tracker file if it exists, else leave the
filesystem unchanged. -/
def reset_one (timestamp : String) (fs : FS) (file : String) : FS :=
  match fs file with
  | none => fs
  | some content =>
    fun p =>
      if p = joinPath (backup_subdir timestamp) file then some content
      else if p = file then none
      else fs p

/-- `backup_and_reset()`: the loop over `TRACKER_FILES`. -/
def backup_and_reset (timestamp : String) (fs : FS) : FS :=
  TRACKER_FILES.foldl (reset_one timestamp) fs

/-- Whether the collector's `load_state()` would resume from a persisted
checkpoint (`os.path.exists(STATE_FILE)`, line 53) rather than build the
fresh default state. -/
def load_state_resumes (fs : FS) : Bool :=
  (fs STATE_FILE).isSome

/-! ### Concrete fixtures used by individual witnesses and counterexamples -/

/-- A patch whose second `"@@ "`-line (`"@@ junk"`) is not a valid hunk
header: the first hunk's body stops there, but the next header only comes
two lines later. -/
def c6patch : String := "@@ -1 +1 @@\nx\n@@ junk\ny\n@@ -2 +2 @@\nz"

/-- An oracle for a commit whose only changed file is skipped by the
extension predicate (`README.md` does not end in `.py`). -/
def c2_oracle : Oracle where
  commit_details := fun repo sha =>
    if repo = "octo/widgets" ∧ sha = "abc" then
      some { parents := ["par"],
             files := [{ filename := "README.md", patch := some "@@ -1 +1 @@\n+x" }],
             message := "fix typo" }
    else none
  file_at := fun _ _ _ => none

/-- An oracle serving distinct one-line file bodies at the parent and the
fixed revision, so a `.py` file with a patch becomes a training pair. -/
def c2w_oracle : Oracle where
  commit_details := fun _ _ => none
  file_at := fun _ rev _ => if rev = "par" then some "x\n" else some "y\n"

/-- An inert oracle: every request fails. -/
def c4_oracle : Oracle where
  commit_details := fun _ _ => none
  file_at := fun _ _ _ => none

/-- A search oracle whose pages are never empty. -/
def c5_empty : Nat → Bool := fun _ => false

/-- A per-page row count of zero. -/
def c5_gain : Nat → Nat := fun _ => 0

/-- A filesystem holding the collector's checkpoint, seen-set and dataset
files. -/
def c9_fs : FS := fun p =>
  if p = STATE_FILE then some "checkpoint"
  else if p = SEEN_FILE then some "sha1\n"
  else if p = OUTPUT_FILE then some "rows"
  else none

/-! ### Helper lemmas -/

theorem get?_append_plus {α : Type} (l1 l2 : List α) (n : Nat) :
    (l1 ++ l2).get? (l1.length + n) = l2.get? n := by
  induction l1 with
  | nil => simp
  | cons a t ih =>
    simp only [List.cons_append, List.length_cons]
    rw [Nat.succ_add]
    simpa using ih

theorem drop_append_plus {α : Type} (l1 l2 : List α) (n : Nat) :
    (l1 ++ l2).drop (l1.length + n) = l2.drop n := by
  induction l1 with
  | nil => simp
  | cons a t ih =>
    simp only [List.cons_append, List.length_cons]
    rw [Nat.succ_add]
    simp only [List.drop_succ_cons]
    exact ih

theorem dropWhile_length_le {α : Type} (p : α → Bool) (l : List α) :
    (l.dropWhile p).length ≤ l.length := by
  induction l with
  | nil => simp
  | cons a t ih =>
    rw [List.dropWhile_cons]
    split
    · exact Nat.le_succ_of_le ih
    · exact Nat.le_refl _

/-- Every hunk produced by the scanning loop has a header line in the input,
and its body is exactly the maximal run of lines after that header not
starting with `"@@ "`. -/
theorem parseHunksGo_spec :
    ∀ (fuel : Nat) (ls : List String), ls.length ≤ fuel →
    ∀ h ∈ parseHunksGo fuel ls,
      ∃ i line, ls.get? i = some line ∧
        ∃ os oLen ns nLen,
          parseHunkHeader line = some (os, oLen, ns, nLen) ∧
          h = { o_start := os, o_len := oLen.getD 1, n_start := ns, n_len := nLen.getD 1,
                lines := (ls.drop (i + 1)).takeWhile notHunkSep } := by
  intro fuel
  induction fuel with
  | zero =>
    intro ls hls h hh
    cases ls with
    | nil => simp [parseHunksGo] at hh
    | cons a t => simp at hls
  | succ n ih =>
    intro ls hls h hh
    cases ls with
    | nil => simp [parseHunksGo] at hh
    | cons l rest =>
      cases hhd : parseHunkHeader l with
      | none =>
        simp only [parseHunksGo, hhd] at hh
        have hrest : rest.length ≤ n := by
          simp only [List.length_cons] at hls
          omega
        obtain ⟨i, line, hget, os, oLen, ns, nLen, hline, hshape⟩ :=
          ih rest hrest h hh
        exact ⟨i + 1, line, by simpa using hget, os, oLen, ns, nLen, hline,
          by simpa using hshape⟩
      | some quad =>
        obtain ⟨os, ⟨oLen, ⟨ns, nLen⟩⟩⟩ := quad
        simp only [parseHunksGo, hhd, List.mem_cons] at hh
        rcases hh with hh0 | hhrec
        · exact ⟨0, l, rfl, os, oLen, ns, nLen, hhd, by simpa using hh0⟩
        · have hlen : (rest.dropWhile notHunkSep).length ≤ n := by
            have h1 := dropWhile_length_le notHunkSep rest
            simp only [List.length_cons] at hls
            omega
          obtain ⟨i, line, hget, os', oLen', ns', nLen', hline, hshape⟩ :=
            ih (rest.dropWhile notHunkSep) hlen h hhrec
          set tw := rest.takeWhile notHunkSep with htw
          set dw := rest.dropWhile notHunkSep with hdw
          have hsplit : tw ++ dw = rest := List.takeWhile_append_dropWhile notHunkSep rest
          refine ⟨tw.length + i + 1, line, ?_, os', oLen', ns', nLen', hline, ?_⟩
          · rw [List.get?_cons_succ, ← hsplit, get?_append_plus]
            exact hget
          · have hdrop : (l :: rest).drop (tw.length + i + 1 + 1) = dw.drop (i + 1) := by
              rw [List.drop_succ_cons, ← hsplit, Nat.add_assoc, drop_append_plus]
            rw [hdrop]
            exact hshape

/-- A row accepted by `file_row` carries the commit sha it was built for. -/
theorem file_row_sha {repo fn sha msg : String} {b f : Option String} {p : String} {row : Row}
    (h : file_row repo fn sha msg b f p = some row) : row.commit_sha = sha := by
  cases b with
  | none => simp [file_row] at h
  | some bb =>
    cases f with
    | none => simp [file_row] at h
    | some ff =>
      simp only [file_row] at h
      split at h
      · exact absurd h (by simp)
      · split at h
        · split at h
          · exact absurd h (by simp)
          · cases h
            rfl
        · exact absurd h (by simp)

/-- A row accepted by `file_row` has a nonempty output representation. -/
theorem file_row_output_ne {repo fn sha msg : String} {b f : Option String} {p : String}
    {row : Row} (h : file_row repo fn sha msg b f p = some row) :
    row.output_representation ≠ "" := by
  cases b with
  | none => simp [file_row] at h
  | some bb =>
    cases f with
    | none => simp [file_row] at h
    | some ff =>
      simp only [file_row] at h
      split at h
      · exact absurd h (by simp)
      · split at h
        · rename_i i o heq
          split at h
          · exact absurd h (by simp)
          · rename_i hne
            cases h
            show o ≠ ""
            intro hcon
            exact hne (Or.inr hcon)
        · exact absurd h (by simp)

/-- A row accepted by the per-file loop body carries the commit sha. -/
theorem file_attempt_sha {o : Oracle} {repo ps sha msg : String} {f : ChangedFile} {row : Row}
    (h : (file_attempt o repo ps sha msg f).1 = some row) : row.commit_sha = sha := by
  simp only [file_attempt] at h
  split at h
  · exact absurd h (by simp)
  · split at h
    · exact absurd h (by simp)
    · exact file_row_sha h

/-- Every row produced by the file loop carries the commit sha. -/
theorem process_files_sha {o : Oracle} {repo ps sha msg : String} :
    ∀ (files : List ChangedFile) (seen : List String) (row : Row),
      row ∈ (process_files o repo ps sha msg seen files).rows → row.commit_sha = sha := by
  intro files
  induction files with
  | nil => intro seen row h; simp [process_files] at h
  | cons f rest ih =>
    intro seen row h
    simp only [process_files] at h
    cases hfa : file_attempt o repo ps sha msg f with
    | mk orow fts =>
      rw [hfa] at h
      cases orow with
      | none =>
        exact ih seen row (by simpa using h)
      | some row0 =>
        simp only [List.mem_cons] at h
        rcases h with h0 | hrest
        · subst h0
          exact file_attempt_sha (by rw [hfa])
        · exact ih (seen.insert sha) row (by simpa using hrest)

/-- The file loop only grows the in-memory seen set. -/
theorem process_files_seen_mono {o : Oracle} {repo ps sha msg : String} :
    ∀ (files : List ChangedFile) (seen : List String),
      seen ⊆ (process_files o repo ps sha msg seen files).seen := by
  intro files
  induction files with
  | nil => intro seen; simp [process_files]
  | cons f rest ih =>
    intro seen
    simp only [process_files]
    cases hfa : file_attempt o repo ps sha msg f with
    | mk orow fts =>
      cases orow with
      | none => exact ih seen
      | some row0 =>
        exact fun a ha => ih (seen.insert sha) (List.mem_insert_of_mem ha)

/-- When some file of the commit is successfully processed, the sha ends up
in the in-memory seen set and is appended to the seen file. -/
theorem process_files_marks_seen {o : Oracle} {repo ps sha msg : String} :
    ∀ (files : List ChangedFile) (seen : List String),
      (process_files o repo ps sha msg seen files).rows ≠ [] →
      sha ∈ (process_files o repo ps sha msg seen files).seen ∧
      sha ∈ (process_files o repo ps sha msg seen files).seen_appends := by
  intro files
  induction files with
  | nil => intro seen h; simp [process_files] at h
  | cons f rest ih =>
    intro seen h
    simp only [process_files] at h ⊢
    cases hfa : file_attempt o repo ps sha msg f with
    | mk orow fts =>
      cases orow with
      | none => exact ih seen (by simpa [hfa] using h)
      | some row0 =>
        constructor
        · show sha ∈ (process_files o repo ps sha msg (seen.insert sha) rest).seen
          exact process_files_seen_mono rest (seen.insert sha) (List.mem_insert_self sha seen)
        · show sha ∈ sha :: (process_files o repo ps sha msg (seen.insert sha) rest).seen_appends
          exact List.mem_cons_self sha _

/-- The item loop only grows the in-memory seen set. -/
theorem process_item_seen_mono {o : Oracle} {seen : List String} {repo sha : String} :
    seen ⊆ (process_item o seen repo sha).seen := by
  simp only [process_item]
  split
  · exact fun a ha => ha
  · split
    · exact fun a ha => ha
    · split
      · exact fun a ha => ha
      · split
        · exact fun a ha => ha
        · exact process_files_seen_mono _ seen

/-- Rows emitted for one item belong to a sha that was not yet seen. -/
theorem process_item_rows_not_seen {o : Oracle} {seen : List String} {repo sha : String}
    {row : Row} (h : row ∈ (process_item o seen repo sha).rows) : row.commit_sha ∉ seen := by
  by_cases hs : sha ∈ seen
  · simp [process_item, hs] at h
  · simp only [process_item, if_neg hs] at h
    split at h
    · simp at h
    · split at h
      · simp at h
      · split at h
        · simp at h
        · have := process_files_sha _ seen row h
          rw [this]
          exact hs

/-- Rows emitted over a whole page belong to shas outside the initial seen
set. -/
theorem process_items_rows_not_seen {o : Oracle} :
    ∀ (items : List (String × String)) (collected : Nat) (seen : List String) (row : Row),
      row ∈ (process_items o collected seen items).rows → row.commit_sha ∉ seen := by
  intro items
  induction items with
  | nil => intro collected seen row h; simp [process_items] at h
  | cons it rest ih =>
    intro collected seen row h
    cases it with
    | mk repo sha =>
      simp only [process_items] at h
      split at h
      · simp at h
      · simp only [List.mem_append] at h
        rcases h with h1 | h2
        · exact process_item_rows_not_seen h1
        · intro hcon
          exact ih _ _ row h2 (process_item_seen_mono hcon)

/-- The second component of `build_ir4_or2` is `None` or exactly the joined
added lines of the patch. -/
theorem build_snd_shape (b f p : String) :
    (build_ir4_or2 b f p).2 = none ∨
    (build_ir4_or2 b f p).2 = some (joinWith "\n" (added_lines p)) := by
  simp only [build_ir4_or2, added_lines]
  cases hp : parse_patch_hunks p with
  | nil => simp
  | cons h0 hs =>
    simp only []
    split
    · simp
    · split
      · simp
      · right
        rfl

/-- Every inner-loop checkpoint of one window carries the window's keyword
index and date end unchanged. -/
theorem pages_loop_frame {ki : Nat} {de : Int} {e : Nat → Bool} {g : Nat → Nat} :
    ∀ (r page collected : Nat) (c : CrawlState),
      c ∈ (pages_loop ki de e g r page collected).2.2 →
      c.keyword_index = ki ∧ c.date_end = de := by
  intro r
  induction r with
  | zero => intro page collected c h; simp [pages_loop] at h
  | succ n ih =>
    intro page collected c h
    simp only [pages_loop] at h
    split at h
    · simp at h
    · split at h
      · simp at h
      · simp only [List.mem_cons] at h
        rcases h with h0 | hrest
        · subst h0
          exact ⟨rfl, rfl⟩
        · exact ih _ _ c hrest

/-! ### Claim theorems -/

/-- C1: for the buggy file `a/b/c/d/e` and a single hunk covering original
lines 2-3 whose only added line is `B2`, `build_ir4_or2` returns output
representation `B2` and an input representation whose lines are `a`, the
commented forms of `b` and `c`, the fill placeholder, then `d` and `e`
unchanged — for every fixed-file argument. -/
theorem C1_pair_builder_example (fixed : String) :
    build_ir4_or2 "a\nb\nc\nd\ne" fixed "@@ -2,2 +2,1 @@\n-b\n-c\n+B2"
      = (some "a\n# b\n# c\n<FILL_ME>\nd\ne", some "B2")
    ∧ pySplitlines "a\n# b\n# c\n<FILL_ME>\nd\ne"
      = ["a", "# b", "# c", "<FILL_ME>", "d", "e"] :=
  ⟨rfl, rfl⟩

/-- C7: the header `@@ -10,3 +10,5 @@` parses to originalStart 10,
originalLength 3, newStart 10, newLength 5, and `@@ -4 +4 @@` parses with
both omitted lengths defaulting to 1. -/
theorem C7_hunk_header_examples :
    parse_patch_hunks "@@ -10,3 +10,5 @@"
      = [{ o_start := 10, o_len := 3, n_start := 10, n_len := 5, lines := [] }]
    ∧ parse_patch_hunks "@@ -4 +4 @@"
      = [{ o_start := 4, o_len := 1, n_start := 4, n_len := 1, lines := [] }] := by
  exact ⟨rfl, rfl⟩

/-- C3 counterexample: starting the rotation at credential index 1 of the
3-credential pool, only two rate-limited requests (fewer than the pool
size, so not all credentials were tried since the last success) already
trigger the long cooldown sleep, and the active index immediately after
the sleep is 0, not the index 1 at which rotation began. -/
theorem C3_rotation_counterexample :
    run_403s 1 2 = (0, 1) ∧ 2 < numTokens ∧ (0 : Nat) ≠ 1 := by
  decide

/-- C3 amended: for the 3-credential pool with every request rate-limited,
each full cycle of `numTokens` rotations performs exactly one long cooldown
sleep and returns the active index to its starting value, and the sleep is
signalled exactly on the rotation that abandons the last pool index
(`numTokens - 1`) and wraps to 0 — so immediately after the sleep the
active index is 0 regardless of where rotation began. -/
theorem C3_rotation_amended :
    ∀ s : Nat, s < numTokens →
      run_403s s numTokens = (s, 1) ∧
      ∀ i : Nat, i < numTokens →
        (rate_limit_rotate i).2 = decide (i = numTokens - 1)
        ∧ ((rate_limit_rotate i).2 = true → (rate_limit_rotate i).1 = 0) := by
  decide

/-- C3 witness: the amended statement applied at starting index 1. -/
theorem C3_rotation_amended_witness :
    1 < numTokens ∧ run_403s 1 numTokens = (1, 1) :=
  ⟨by decide, (C3_rotation_amended 1 (by decide)).1⟩

/-- C6 counterexample: in `c6patch` the line `"@@ junk"` starts with
`"@@ "` but is not a valid hunk header, so the first hunk's body stops at
it: the body is `["x"]`, although the lines strictly between the first
header (line 0) and the next header-matching line (line 4, `@@ -2 +2 @@`)
are `["x", "@@ junk", "y"]`. -/
theorem C6_body_counterexample :
    pySplitlines c6patch = ["@@ -1 +1 @@", "x", "@@ junk", "y", "@@ -2 +2 @@", "z"]
    ∧ parseHunkHeader "@@ junk" = none
    ∧ parseHunkHeader "y" = none
    ∧ (parseHunkHeader "@@ -2 +2 @@").isSome = true
    ∧ (parse_patch_hunks c6patch).map Hunk.lines = [["x"], ["z"]]
    ∧ (["x"] : List String) ≠ ["x", "@@ junk", "y"] := by
  decide

/-- C6 amended: for every patch, each parsed hunk owns a header line in the
patch whose captured numbers are the hunk's fields, and its body is exactly
the lines strictly between that header line and the next following line
starting with `"@@ "` (or the end of the input). -/
theorem C6_body_amended (patch : String) (h : Hunk)
    (hmem : h ∈ parse_patch_hunks patch) :
    ∃ i line, (pySplitlines patch).get? i = some line ∧
      ∃ os oLen ns nLen,
        parseHunkHeader line = some (os, oLen, ns, nLen) ∧
        h = { o_start := os, o_len := oLen.getD 1, n_start := ns, n_len := nLen.getD 1,
              lines := ((pySplitlines patch).drop (i + 1)).takeWhile notHunkSep } :=
  parseHunksGo_spec (pySplitlines patch).length (pySplitlines patch)
    (Nat.le_refl _) h hmem

/-- C6 witness: the amended statement applied to a one-hunk patch. -/
theorem C6_body_amended_witness :
    ({ o_start := 1, o_len := 1, n_start := 1, n_len := 1, lines := ["x"] } : Hunk)
      ∈ parse_patch_hunks "@@ -1 +1 @@\nx"
    ∧ ∃ i line, (pySplitlines "@@ -1 +1 @@\nx").get? i = some line ∧
      ∃ os oLen ns nLen,
        parseHunkHeader line = some (os, oLen, ns, nLen) ∧
        ({ o_start := 1, o_len := 1, n_start := 1, n_len := 1, lines := ["x"] } : Hunk)
          = { o_start := os, o_len := oLen.getD 1, n_start := ns, n_len := nLen.getD 1,
              lines := ((pySplitlines "@@ -1 +1 @@\nx").drop (i + 1)).takeWhile notHunkSep } :=
  ⟨by decide, C6_body_amended "@@ -1 +1 @@\nx" _ (by decide)⟩

/-- C9: the reset script, run on a filesystem holding the collector's
checkpoint (`collector_state.json`), seen-set and dataset files, backs up
and deletes the seen-set file and leaves the dataset untouched — but the
collector's checkpoint file is not in `TRACKER_FILES` (the script handles
the stale name `last_date.txt` instead), survives the reset, and
`load_state` would still resume from it, contradicting the claimed fresh
start. -/
theorem C9_reset_leaves_checkpoint :
    STATE_FILE ∉ TRACKER_FILES
    ∧ backup_and_reset "20251012_000000" c9_fs STATE_FILE = some "checkpoint"
    ∧ load_state_resumes (backup_and_reset "20251012_000000" c9_fs) = true
    ∧ backup_and_reset "20251012_000000" c9_fs SEEN_FILE = none
    ∧ backup_and_reset "20251012_000000" c9_fs
        (joinPath (backup_subdir "20251012_000000") SEEN_FILE) = some "sha1\n"
    ∧ backup_and_reset "20251012_000000" c9_fs OUTPUT_FILE = some "rows" := by
  decide

/-- C2 counterexample: a commit that is selected (its sha not yet seen) and
fully attempted — its detail is fetched and its single changed file is
skipped by the extension predicate — produces no row, and its sha is NOT
added to the in-memory seen set nor appended to the seen file. -/
theorem C2_seen_counterexample :
    (process_item c2_oracle [] "octo/widgets" "abc").fetches
      = [Fetch.detail "octo/widgets" "abc"]
    ∧ (process_item c2_oracle [] "octo/widgets" "abc").rows = []
    ∧ (process_item c2_oracle [] "octo/widgets" "abc").seen = []
    ∧ (process_item c2_oracle [] "octo/widgets" "abc").seen_appends = [] := by
  decide

/-- C2 amended: the commit's sha is marked seen (added to the in-memory set
and appended to the seen file) exactly on successful processing of a file
into a training pair — whenever the file loop yields any row — while a file
whose per-file attempt fails is skipped alone: the remaining files still
produce the same rows, seen set and seen-file appends. -/
theorem C2_seen_marking_amended (o : Oracle) (repo parent_sha sha msg : String)
    (seen : List String) :
    (∀ files : List ChangedFile,
      (process_files o repo parent_sha sha msg seen files).rows ≠ [] →
      sha ∈ (process_files o repo parent_sha sha msg seen files).seen
      ∧ sha ∈ (process_files o repo parent_sha sha msg seen files).seen_appends)
    ∧ ∀ (f : ChangedFile) (rest : List ChangedFile),
        (file_attempt o repo parent_sha sha msg f).1 = none →
        (process_files o repo parent_sha sha msg seen (f :: rest)).rows
          = (process_files o repo parent_sha sha msg seen rest).rows
        ∧ (process_files o repo parent_sha sha msg seen (f :: rest)).seen
          = (process_files o repo parent_sha sha msg seen rest).seen
        ∧ (process_files o repo parent_sha sha msg seen (f :: rest)).seen_appends
          = (process_files o repo parent_sha sha msg seen rest).seen_appends := by
  constructor
  · intro files
    exact process_files_marks_seen files seen
  · intro f rest hnone
    cases hfa : file_attempt o repo parent_sha sha msg f with
    | mk orow fts =>
      rw [hfa] at hnone
      cases orow with
      | none => simp [process_files, hfa]
      | some row0 => simp at hnone

/-- C2 witness: the amended statement applied to a one-file commit whose
file is successfully processed. -/
theorem C2_seen_marking_amended_witness :
    (process_files c2w_oracle "octo/widgets" "par" "abc" "m" []
        [{ filename := "fix.py", patch := some "@@ -1,1 +1,1 @@\n-x\n+y" }]).rows ≠ []
    ∧ "abc" ∈ (process_files c2w_oracle "octo/widgets" "par" "abc" "m" []
        [{ filename := "fix.py", patch := some "@@ -1,1 +1,1 @@\n-x\n+y" }]).seen
    ∧ "abc" ∈ (process_files c2w_oracle "octo/widgets" "par" "abc" "m" []
        [{ filename := "fix.py", patch := some "@@ -1,1 +1,1 @@\n-x\n+y" }]).seen_appends :=
  ⟨by decide,
   (C2_seen_marking_amended c2w_oracle "octo/widgets" "par" "abc" "m" []).1 _ (by decide)⟩

/-- C4: a commit id already in the seen set short-circuits before any
commit-detail or file-content fetch — the item contributes no row, no
fetch and leaves the seen set unchanged — and over a whole re-fetched
page, every row written belongs to a sha outside the initial seen set, so
re-processing recorded commits is a no-op on the dataset. -/
theorem C4_reruns_idempotent (o : Oracle) (collected : Nat) (seen : List String)
    (items : List (String × String)) :
    (∀ repo sha, sha ∈ seen →
      process_item o seen repo sha = { rows := [], seen := seen, seen_appends := [], fetches := [] })
    ∧ ∀ row ∈ (process_items o collected seen items).rows, row.commit_sha ∉ seen := by
  constructor
  · intro repo sha h
    simp [process_item, h]
  · intro row h
    exact process_items_rows_not_seen items collected seen row h

/-- C4 witness: the short-circuit applied to a concrete already-seen sha. -/
theorem C4_reruns_idempotent_witness :
    ("abc" ∈ ["abc"])
    ∧ process_item c4_oracle ["abc"] "octo/widgets" "abc"
        = { rows := [], seen := ["abc"], seen_appends := [], fetches := [] } :=
  ⟨by decide,
   (C4_reruns_idempotent c4_oracle 0 ["abc"] []).1 "octo/widgets" "abc" (by decide)⟩

/-- C5: after one window of the driver — for any page-emptiness oracle,
per-page gains and incoming collected count — the state persisted by the
window advance has `date_end` exactly `DAYS_PER_RANGE` days earlier,
`keyword_index` exactly one larger and `page` reset to 1, relative to the
incoming state, whose `keyword_index` and `date_end` every checkpoint
persisted inside the window carries unchanged. -/
theorem C5_window_advance (empty : Nat → Bool) (gain : Nat → Nat)
    (collected : Nat) (s : CrawlState) :
    (window_step empty gain collected s).1.date_end = s.date_end - (DAYS_PER_RANGE : Int)
    ∧ (window_step empty gain collected s).1.keyword_index = s.keyword_index + 1
    ∧ (window_step empty gain collected s).1.page = 1
    ∧ ∀ c ∈ (pages_loop s.keyword_index s.date_end empty gain
        MAX_PAGES_PER_QUERY s.page collected).2.2,
        c.keyword_index = s.keyword_index ∧ c.date_end = s.date_end := by
  refine ⟨rfl, rfl, rfl, ?_⟩
  intro c hc
  exact pages_loop_frame MAX_PAGES_PER_QUERY s.page collected c hc

/-- C5 witness: the frame part applied to a window starting at keyword 5,
date ordinal 100, page 2, with no empty pages. -/
theorem C5_window_advance_witness :
    ((⟨5, 100, 3⟩ : CrawlState)
        ∈ (pages_loop 5 100 c5_empty c5_gain MAX_PAGES_PER_QUERY 2 0).2.2)
    ∧ (⟨5, 100, 3⟩ : CrawlState).keyword_index = 5
    ∧ (⟨5, 100, 3⟩ : CrawlState).date_end = 100 := by
  refine ⟨by decide, ?_⟩
  have h := (C5_window_advance c5_empty c5_gain 0 ⟨5, 100, 2⟩).2.2.2
    ⟨5, 100, 3⟩ (by decide)
  exact h

/-- C8: a patch whose parsed hunks contain no added lines (no body line
starting with `+` other than the `+++` marker) makes the pair builder
signal not-buildable, returning `(None, None)` for every buggy and fixed
file. -/
theorem C8_pure_deletion_not_buildable (buggy fixed patch : String)
    (h : added_lines patch = []) :
    build_ir4_or2 buggy fixed patch = (none, none) := by
  simp only [build_ir4_or2]
  cases hp : parse_patch_hunks patch with
  | nil => rfl
  | cons h0 hs =>
    simp only []
    split
    · rfl
    · have : added_lines_of (h0 :: hs) = [] := by
        rw [added_lines, hp] at h
        exact h
      rw [this]

/-- C8 witness: a concrete pure-deletion patch. -/
theorem C8_pure_deletion_witness :
    added_lines "@@ -2,1 +1,0 @@\n-b" = []
    ∧ build_ir4_or2 "a\nb\nc" "a\nc" "@@ -2,1 +1,0 @@\n-b" = (none, none) :=
  ⟨by decide, C8_pure_deletion_not_buildable "a\nb\nc" "a\nc" _ (by decide)⟩

/-- C10: a patch whose added lines are exactly one line that is empty after
stripping its `+` (with a non-degenerate envelope) makes `build_ir4_or2`
return a buildable pair whose output representation is the empty string;
the pipeline's row decision then rejects it for every fetched file pair,
and in general no accepted row ever carries an empty output
representation. -/
theorem C10_empty_added_line :
    (∀ b fx patch, added_lines patch = [""] → envelope_ok b patch = true →
      ∃ i, build_ir4_or2 b fx patch = (some i, some ""))
    ∧ (∀ repo fn sha msg (buggy fixed : Option String) patch,
        added_lines patch = [""] →
        file_row repo fn sha msg buggy fixed patch = none)
    ∧ (∀ repo fn sha msg (buggy fixed : Option String) patch row,
        file_row repo fn sha msg buggy fixed patch = some row →
        row.output_representation ≠ "") := by
  refine ⟨?_, ?_, ?_⟩
  · intro b fx patch hadd henv
    simp only [build_ir4_or2]
    cases hp : parse_patch_hunks patch with
    | nil =>
      rw [envelope_ok, hp] at henv
      exact absurd henv (by simp)
    | cons h0 hs =>
      simp only []
      rw [envelope_ok, hp] at henv
      have hle : start_idx_of h0 hs ≤ end_idx_of (pySplitlines b) h0 hs :=
        of_decide_eq_true henv
      rw [if_neg (by omega)]
      have haof : added_lines_of (h0 :: hs) = [""] := by
        rw [added_lines, hp] at hadd
        exact hadd
      rw [haof]
      exact ⟨_, rfl⟩
  · intro repo fn sha msg buggy fixed patch hadd
    cases buggy with
    | none => simp [file_row]
    | some b =>
      cases fixed with
      | none => simp [file_row]
      | some fx =>
        simp only [file_row]
        split
        · rfl
        · rcases build_snd_shape b fx patch with hsnd | hsnd
          · cases hb : build_ir4_or2 b fx patch with
            | mk x y =>
              rw [hb] at hsnd
              cases x with
              | none => rfl
              | some i =>
                cases y with
                | none => rfl
                | some o => simp at hsnd
          · cases hb : build_ir4_or2 b fx patch with
            | mk x y =>
              rw [hb] at hsnd
              simp only at hsnd
              rw [hadd] at hsnd
              cases x with
              | none => rfl
              | some i =>
                cases y with
                | none => rfl
                | some o =>
                  have ho : o = "" := by
                    have := Option.some.inj hsnd
                    simpa [joinWith] using this
                  simp [ho]
  · intro repo fn sha msg buggy fixed patch row h
    exact file_row_output_ne h

/-- C10 witness: a concrete patch adding exactly one empty line. -/
theorem C10_empty_added_line_witness :
    added_lines "@@ -1,1 +1,1 @@\n-x\n+" = [""]
    ∧ envelope_ok "x" "@@ -1,1 +1,1 @@\n-x\n+" = true
    ∧ ∃ i, build_ir4_or2 "x" "y" "@@ -1,1 +1,1 @@\n-x\n+" = (some i, some "") :=
  ⟨by decide, by decide,
   C10_empty_added_line.1 "x" "y" "@@ -1,1 +1,1 @@\n-x\n+" (by decide) (by decide)⟩

end APRCollect
